import Mathlib

/-!
Verification of the rest-client library (RestClient, HTTPError, simpleFetch)
against its natural-language specification.

Shallow embedding conventions:
* JavaScript strings are modelled as `List Char`.
* JavaScript values flowing through the body/response codecs are modelled by
  the mutual inductive `Json` (numbers restricted to integers; the library
  only ever passes such values through `JSON.stringify` / `JSON.parse`).
* Header mappings are association lists `List (List Char × List Char)` whose
  list order models JavaScript object key iteration order.
* Fallible operations return `Except JsErr _`; a thrown `TypeError`
  (e.g. calling `startsWith` on `null`) is `JsErr.typeError`.
* The platform primitives used by the source (`JSON.stringify`, `JSON.parse`,
  `Qs.stringify`, the status-code table of the http-status-codes package and
  the `fetch` transport) are modelled as executable Lean functions; the
  network itself is a parameter `world : Request → JsResponse`.
-/

/-- Convert a Lean string literal to the `List Char` representation used
throughout the embedding. -/
def strL (s : String) : List Char := s.data

/-- Lower-case a JavaScript string (`String.prototype.toLowerCase`,
ASCII fragment, which is all the library compares). -/
def lowerChars (s : List Char) : List Char := s.map Char.toLower

/-- Boolean prefix test on character lists, modelling
`String.prototype.startsWith`. -/
def startsWithCh : List Char → List Char → Bool
  | [], _ => true
  | p :: ps, c :: cs => p = c && startsWithCh ps cs
  | _, [] => false

/-- The keyword `null` as characters. -/
def litNull : List Char := ['n', 'u', 'l', 'l']

/-- The keyword `true` as characters. -/
def litTrue : List Char := ['t', 'r', 'u', 'e']

/-- The keyword `false` as characters. -/
def litFalse : List Char := ['f', 'a', 'l', 's', 'e']

/-- First character of a key is ASCII alphanumeric, i.e. the key matches the
regular expression `/^[a-z0-9]/i` used by `getHeader`. -/
def alnumLead : List Char → Bool
  | [] => false
  | c :: _ => c.isAlphanum

/-- Header mappings: association lists in object-key iteration order. -/
abbrev Headers := List (List Char × List Char)

/-- The characters of the header name `content-type`. -/
def ctNameChars : List Char :=
  ['c', 'o', 'n', 't', 'e', 'n', 't', '-', 't', 'y', 'p', 'e']

/-- Embedding of `getHeader(headers, name)` (src/unnamed/part_001 lines
10-19): filter the keys to those matching `/^[a-z0-9]/i`, find the first
whose lower-cased form equals the lower-cased `name`, and return its value,
or `none` (JS `null`) when there is no such key. -/
def getHeader (headers : Headers) (name : List Char) : Option (List Char) :=
  let lname := lowerChars name
  match (headers.filter fun p => alnumLead p.1).find?
      (fun p => lowerChars p.1 == lname) with
  | some p => some p.2
  | none => none

mutual

/-- JavaScript values handled by the codecs.  Mutual inductives are used for
arrays and objects so that structural mutual recursion is available. -/
inductive Json where
  | null : Json
  | bool (b : Bool) : Json
  | num (n : Int) : Json
  | str (s : List Char) : Json
  | arr (elems : JsonList) : Json
  | obj (fields : JsonFields) : Json

/-- Lists of JSON values (array elements, in order). -/
inductive JsonList where
  | nil : JsonList
  | cons (hd : Json) (tl : JsonList) : JsonList

/-- Object fields of a JSON value, in key insertion order. -/
inductive JsonFields where
  | nil : JsonFields
  | cons (key : List Char) (val : Json) (tl : JsonFields) : JsonFields

end

/-- JavaScript truthiness of a modelled value (`!body` in the source). -/
def Json.truthy : Json → Bool
  | .null => false
  | .bool b => b
  | .num n => if n = 0 then false else true
  | .str s => if s = [] then false else true
  | .arr _ => true
  | .obj _ => true

/-- Property access `o[k]` on a modelled object value (object keys are
unique in JavaScript, so the first match is the value). -/
def lookupFields : JsonFields → List Char → Option Json
  | .nil, _ => none
  | .cons k v t, key => if k = key then some v else lookupFields t key

/-- Property access on a JSON value; `none` for non-objects. -/
def Json.getField : Json → List Char → Option Json
  | .obj f, key => lookupFields f key
  | _, _ => none

/-- JSON escaping of one character, as produced by `JSON.stringify`
(named escapes; other characters are passed through). -/
def escapeChar (c : Char) : List Char :=
  if c = '"' then ['\\', '"']
  else if c = '\\' then ['\\', '\\']
  else if c = '\n' then ['\\', 'n']
  else if c = '\t' then ['\\', 't']
  else if c = '\r' then ['\\', 'r']
  else if c = Char.ofNat 8 then ['\\', 'b']
  else if c = Char.ofNat 12 then ['\\', 'f']
  else [c]

/-- JSON escaping of a whole string body. -/
def escapeStr : List Char → List Char
  | [] => []
  | c :: s => escapeChar c ++ escapeStr s

/-- The decimal digit character for `d` (defined for `d ≤ 9`). -/
def digitToChar (d : Nat) : Char :=
  if d = 0 then '0' else if d = 1 then '1' else if d = 2 then '2'
  else if d = 3 then '3' else if d = 4 then '4' else if d = 5 then '5'
  else if d = 6 then '6' else if d = 7 then '7' else if d = 8 then '8'
  else '9'

/-- Numeric value of a decimal digit character. -/
def charToDigit (c : Char) : Nat := c.toNat - 48

/-- Decimal digits of a natural number, most significant first; the fuel
argument makes the recursion structural so terms reduce definitionally. -/
def natToCharsAux : Nat → Nat → List Char
  | 0, _ => []
  | fuel + 1, n =>
    if n < 10 then [digitToChar n]
    else natToCharsAux fuel (n / 10) ++ [digitToChar (n % 10)]

/-- Decimal representation of a natural number. -/
def natToChars (n : Nat) : List Char := natToCharsAux (n + 1) n

/-- Decimal representation of an integer (JS number-to-string for the
integral values the embedding covers). -/
def intToChars (n : Int) : List Char :=
  if n < 0 then '-' :: natToChars n.natAbs else natToChars n.toNat

mutual

/-- Serialization of JSON values, modelling `JSON.stringify`. -/
def stringifyJson : Json → List Char
  | .null => litNull
  | .bool true => litTrue
  | .bool false => litFalse
  | .num n => intToChars n
  | .str s => '"' :: (escapeStr s ++ ['"'])
  | .arr l => '[' :: (stringifyList l ++ [']'])
  | .obj f => '{' :: (stringifyFields f ++ ['}'])

/-- Comma-separated serialization of array elements. -/
def stringifyList : JsonList → List Char
  | .nil => []
  | .cons h .nil => stringifyJson h
  | .cons h (.cons h2 t) =>
    stringifyJson h ++ ',' :: stringifyList (.cons h2 t)

/-- Comma-separated serialization of object fields. -/
def stringifyFields : JsonFields → List Char
  | .nil => []
  | .cons k v .nil => '"' :: (escapeStr k ++ '"' :: ':' :: stringifyJson v)
  | .cons k v (.cons k2 v2 t) =>
    ('"' :: (escapeStr k ++ '"' :: ':' :: stringifyJson v)) ++
      ',' :: stringifyFields (.cons k2 v2 t)

end

/-- Inverse of `escapeChar` on the character following a backslash. -/
def unescapeChar (e : Char) : Option Char :=
  if e = '"' then some '"'
  else if e = '\\' then some '\\'
  else if e = '/' then some '/'
  else if e = 'n' then some '\n'
  else if e = 't' then some '\t'
  else if e = 'r' then some '\r'
  else if e = 'b' then some (Char.ofNat 8)
  else if e = 'f' then some (Char.ofNat 12)
  else none

/-- Parse the body of a JSON string literal (after the opening quote) up to
and including the closing quote; returns the decoded string and the rest of
the input. -/
def parseStringBody : List Char → Option (List Char × List Char)
  | [] => none
  | c :: rest =>
    if c = '"' then some ([], rest)
    else if c = '\\' then
      match rest with
      | [] => none
      | e :: rest2 =>
        (unescapeChar e).bind fun u =>
          (parseStringBody rest2).map fun p => (u :: p.1, p.2)
    else (parseStringBody rest).map fun p => (c :: p.1, p.2)

/-- Consume leading decimal digits, accumulating their value. -/
def parseNatAux : List Char → Nat → Nat × List Char
  | [], acc => (acc, [])
  | c :: rest, acc =>
    if c.isDigit then parseNatAux rest (acc * 10 + charToDigit c)
    else (acc, c :: rest)

/-- Parse a nonempty run of decimal digits. -/
def parseNatChars : List Char → Option (Nat × List Char)
  | [] => none
  | c :: rest =>
    if c.isDigit then some (parseNatAux rest (charToDigit c)) else none

/-- Test whether the input starts with a decimal digit. -/
def headIsDigit : List Char → Bool
  | [] => false
  | c :: _ => c.isDigit

/-- The input does not continue a digit run or an element list: it is empty
or starts with a character that is neither a digit nor a comma. -/
def elemStop : List Char → Bool
  | [] => true
  | c :: _ => !c.isDigit && !(c == ',')

mutual

/-- Fuelled recursive-descent parser for the JSON texts produced by
`stringifyJson`, modelling `JSON.parse`; returns the value and the
unconsumed rest of the input. -/
def parseValueF : Nat → List Char → Option (Json × List Char)
  | 0, _ => none
  | _ + 1, [] => none
  | fuel + 1, c :: rest =>
    if c.isDigit then
      (parseNatChars (c :: rest)).map fun p => (.num (p.1 : Int), p.2)
    else if c = '-' then
      (parseNatChars rest).map fun p => (.num (-(p.1 : Int)), p.2)
    else if c = '"' then
      (parseStringBody rest).map fun p => (.str p.1, p.2)
    else if c = '[' then
      match rest with
      | ']' :: r2 => some (.arr .nil, r2)
      | _ =>
        (parseElemsF fuel rest).bind fun p =>
          match p.2 with
          | ']' :: r2 => some (.arr p.1, r2)
          | _ => none
    else if c = '{' then
      match rest with
      | '}' :: r2 => some (.obj .nil, r2)
      | _ =>
        (parseFieldsF fuel rest).bind fun p =>
          match p.2 with
          | '}' :: r2 => some (.obj p.1, r2)
          | _ => none
    else if c = 't' then
      match rest with
      | 'r' :: 'u' :: 'e' :: r2 => some (.bool true, r2)
      | _ => none
    else if c = 'f' then
      match rest with
      | 'a' :: 'l' :: 's' :: 'e' :: r2 => some (.bool false, r2)
      | _ => none
    else if c = 'n' then
      match rest with
      | 'u' :: 'l' :: 'l' :: r2 => some (.null, r2)
      | _ => none
    else none
termination_by structural fuel _ => fuel

/-- Parse one or more comma-separated array elements. -/
def parseElemsF : Nat → List Char → Option (JsonList × List Char)
  | 0, _ => none
  | fuel + 1, cs =>
    (parseValueF fuel cs).bind fun p =>
      match p.2 with
      | ',' :: r2 =>
        (parseElemsF fuel r2).map fun q => (.cons p.1 q.1, q.2)
      | _ => some (.cons p.1 .nil, p.2)
termination_by structural fuel _ => fuel

/-- Parse one or more comma-separated object fields. -/
def parseFieldsF : Nat → List Char → Option (JsonFields × List Char)
  | 0, _ => none
  | fuel + 1, cs =>
    match cs with
    | '"' :: rest =>
      (parseStringBody rest).bind fun pk =>
        match pk.2 with
        | ':' :: r2 =>
          (parseValueF fuel r2).bind fun pv =>
            match pv.2 with
            | ',' :: r4 =>
              (parseFieldsF fuel r4).map fun q => (.cons pk.1 pv.1 q.1, q.2)
            | _ => some (.cons pk.1 pv.1 .nil, pv.2)
        | _ => none
    | _ => none
termination_by structural fuel _ => fuel

end

/-- Top-level `JSON.parse` model: parse a complete JSON text; fails unless
the whole input is consumed. -/
def parseJson (cs : List Char) : Option Json :=
  match parseValueF (cs.length + 1) cs with
  | some (j, []) => some j
  | _ => none

mutual

/-- Fuel needed by `parseValueF` to parse the serialization of a value. -/
def jsize : Json → Nat
  | .arr l => jsizeL l + 1
  | .obj f => jsizeF f + 1
  | _ => 1

/-- Fuel needed by `parseElemsF` for serialized array elements. -/
def jsizeL : JsonList → Nat
  | .nil => 0
  | .cons h t => max (jsize h) (jsizeL t) + 1

/-- Fuel needed by `parseFieldsF` for serialized object fields. -/
def jsizeF : JsonFields → Nat
  | .nil => 0
  | .cons _ v t => max (jsize v) (jsizeF t) + 1

end

mutual

/-- JavaScript string coercion of a value, as used by the template literal
in the `text/` branch of `parseBody`. -/
def jsToString : Json → List Char
  | .null => litNull
  | .bool true => litTrue
  | .bool false => litFalse
  | .num n => intToChars n
  | .str s => s
  | .arr l => jsToStringElems l
  | .obj _ => strL "[object Object]"

/-- `Array.prototype.toString`: elements joined with commas, `null`
elements rendered as the empty string. -/
def jsToStringElems : JsonList → List Char
  | .nil => []
  | .cons .null .nil => []
  | .cons h .nil => jsToString h
  | .cons .null (.cons h2 t) => ',' :: jsToStringElems (.cons h2 t)
  | .cons h (.cons h2 t) => jsToString h ++ ',' :: jsToStringElems (.cons h2 t)

end

/-- Object fields as an ordered association list. -/
def fieldsAsList : JsonFields → List (List Char × Json)
  | .nil => []
  | .cons k v t => (k, v) :: fieldsAsList t

/-- An ordered association list as object fields. -/
def listToFields : List (List Char × Json) → JsonFields
  | [] => .nil
  | (k, v) :: t => .cons k v (listToFields t)

/-- The `FormData` entries appended by the `multipart/form-data` branch of
`parseBody`: one entry per own enumerable key of the body.  Only object
bodies carry enumerable keys in the fragment modelled here. -/
def formEntries : Json → List (List Char × Json)
  | .obj f => fieldsAsList f
  | _ => []

/-- Wire-ready request bodies produced by `parseBody`: a value passed
through unchanged, a string, or a multipart form. -/
inductive SentBody where
  | jsVal (v : Json) : SentBody
  | jsStr (s : List Char) : SentBody
  | jsForm (entries : List (List Char × Json)) : SentBody

/-- Decoded response bodies produced by `resolveResponse`. -/
inductive Decoded where
  | text (s : List Char) : Decoded
  | json (j : Json) : Decoded
  | buffer (s : List Char) : Decoded
  | stream : Decoded

/-- Values a JavaScript error can be in this embedding: platform errors
(`TypeError` from a method call on `null`, `SyntaxError` from `JSON.parse`),
the configuration errors thrown by the source, the error thrown by the
status-code table for an unknown code, and `HTTPError` itself. -/
inductive JsErr where
  | typeError : JsErr
  | syntaxError : JsErr
  | routeNotDefined : JsErr
  | missingBaseUrl : JsErr
  | invalidStatusCode (code : Nat) : JsErr
  | http (code : Nat) (msg : List Char) (response : Decoded) : JsErr

/-- Characters of the content-type `text/` used by the codec branches. -/
def ctTextChars : List Char := ['t', 'e', 'x', 't', '/']

/-- Characters of the content-type `application/json`. -/
def ctJsonChars : List Char :=
  ['a', 'p', 'p', 'l', 'i', 'c', 'a', 't', 'i', 'o', 'n', '/',
   'j', 's', 'o', 'n']

/-- Characters of the content-type `multipart/form-data`. -/
def ctMultiChars : List Char := strL "multipart/form-data"

/-- Embedding of `RestClient.parseBody(body, headers)` (src/unnamed/part_001
lines 150-168).  A falsy body is returned unchanged; otherwise the
Content-Type header is looked up and, when the lookup yields `null` (JS),
the `startsWith` call on it throws a `TypeError`. -/
def parseBody (body : Json) (headers : Headers) : Except JsErr SentBody :=
  if body.truthy = false then .ok (.jsVal body)
  else
    match getHeader headers ctNameChars with
    | none => .error .typeError
    | some contentType =>
      if startsWithCh ctTextChars contentType then
        .ok (.jsStr (jsToString body))
      else if startsWithCh ctJsonChars contentType then
        .ok (.jsStr (stringifyJson body))
      else if startsWithCh ctMultiChars contentType then
        .ok (.jsForm (formEntries body))
      else .ok (.jsVal body)

/-- A transport response as observed by `resolveResponse`: status, status
text, response headers as a mapping, and the raw body text. -/
structure JsResponse where
  status : Nat
  statusText : List Char
  headers : Headers
  bodyText : List Char

/-- The `ok` flag of a fetch response: status in the 200-299 range. -/
def JsResponse.isOk (r : JsResponse) : Bool :=
  decide (200 ≤ r.status) && decide (r.status < 300)

/-- Dispatch on an effective content type (already lower-cased when it came
from the response headers): the branch structure of `resolveResponse`. -/
def resolveByType (contentType : List Char) (r : JsResponse)
    (resolveStreams : Bool) : Except JsErr Decoded :=
  if startsWithCh ctTextChars contentType then .ok (.text r.bodyText)
  else if startsWithCh ctJsonChars contentType then
    match parseJson r.bodyText with
    | some j => .ok (.json j)
    | none => .error .syntaxError
  else if resolveStreams then .ok (.buffer r.bodyText) else .ok .stream

/-- Embedding of `RestClient.resolveResponse(result, forceType,
resolveStreams)` (src/unnamed/part_001 lines 177-193).  With no `forceType`
the Content-Type header is looked up and lower-cased; when the lookup
yields `null`, the `toLowerCase` call on it throws a `TypeError`. -/
def resolveResponse (r : JsResponse) (forceType : Option (List Char))
    (resolveStreams : Bool) : Except JsErr Decoded :=
  match forceType with
  | some t => resolveByType t r resolveStreams
  | none =>
    match getHeader r.headers ctNameChars with
    | none => .error .typeError
    | some v => resolveByType (lowerChars v) r resolveStreams

/-- The status-code/reason-phrase table of the http-status-codes package
(`HttpStatus.getStatusText`); `none` models the `Error` the package throws
for a code absent from its table. -/
def getStatusText (code : Nat) : Option (List Char) :=
  match code with
  | 100 => some (strL "Continue")
  | 101 => some (strL "Switching Protocols")
  | 200 => some (strL "OK")
  | 201 => some (strL "Created")
  | 202 => some (strL "Accepted")
  | 203 => some (strL "Non Authoritative Information")
  | 204 => some (strL "No Content")
  | 205 => some (strL "Reset Content")
  | 206 => some (strL "Partial Content")
  | 300 => some (strL "Multiple Choices")
  | 301 => some (strL "Moved Permanently")
  | 302 => some (strL "Moved Temporarily")
  | 303 => some (strL "See Other")
  | 304 => some (strL "Not Modified")
  | 305 => some (strL "Use Proxy")
  | 307 => some (strL "Temporary Redirect")
  | 308 => some (strL "Permanent Redirect")
  | 400 => some (strL "Bad Request")
  | 401 => some (strL "Unauthorized")
  | 402 => some (strL "Payment Required")
  | 403 => some (strL "Forbidden")
  | 404 => some (strL "Not Found")
  | 405 => some (strL "Method Not Allowed")
  | 406 => some (strL "Not Acceptable")
  | 407 => some (strL "Proxy Authentication Required")
  | 408 => some (strL "Request Timeout")
  | 409 => some (strL "Conflict")
  | 410 => some (strL "Gone")
  | 411 => some (strL "Length Required")
  | 412 => some (strL "Precondition Failed")
  | 413 => some (strL "Request Entity Too Large")
  | 414 => some (strL "Request-URI Too Long")
  | 415 => some (strL "Unsupported Media Type")
  | 416 => some (strL "Requested Range Not Satisfiable")
  | 417 => some (strL "Expectation Failed")
  | 418 => some (strL "I'm a teapot")
  | 422 => some (strL "Unprocessable Entity")
  | 429 => some (strL "Too Many Requests")
  | 500 => some (strL "Internal Server Error")
  | 501 => some (strL "Not Implemented")
  | 502 => some (strL "Bad Gateway")
  | 503 => some (strL "Service Unavailable")
  | 504 => some (strL "Gateway Timeout")
  | 505 => some (strL "HTTP Version Not Supported")
  | _ => none

/-- Embedding of the `HTTPError` constructor (src/src/httperror.js lines
18-36): resolve the reason phrase for `code` (throwing for unknown codes),
substitute it for an empty or missing message, and store code, message and
the decoded failure response.  The error value is represented by the
`JsErr.http` constructor carrying those three immutable fields. -/
def HTTPError.make (code : Nat) (msg : List Char) (response : Decoded) :
    Except JsErr JsErr :=
  match getStatusText code with
  | none => .error (.invalidStatusCode code)
  | some st => .ok (.http code (if msg = [] then st else msg) response)

/-- The `statusText` getter of `HTTPError`: derived from the stored code
via the status table, not from the stored message. -/
def httpErrorStatusText (code : Nat) : Option (List Char) :=
  getStatusText code

/-- Client state: the private fields `#baseUrl`, `#headers`,
`#simulatedDelay` of `RestClient`. -/
structure RestClient where
  baseUrl : List Char
  headers : Headers
  simulatedDelay : Nat

/-- The initial value of the private `#headers` field. -/
def defaultHeaders : Headers :=
  [(strL "Accept", strL "application/json"),
   (strL "Content-Type", strL "application/json")]

/-- JavaScript own-property lookup `o[k]` on an association-list object. -/
def lookupProp {β : Type} : List (List Char × β) → List Char → Option β
  | [], _ => none
  | (k, v) :: rest, key => if k = key then some v else lookupProp rest key

/-- Whether an object has a given own property. -/
def hasProp {β : Type} (o : List (List Char × β)) (k : List Char) : Bool :=
  (lookupProp o k).isSome

/-- Replace the value of a key/value pair by the value `b` holds for that
key, when it holds one. -/
def overrideWith {β : Type} (b : List (List Char × β)) (p : List Char × β) :
    List Char × β :=
  match lookupProp b p.1 with
  | some w => (p.1, w)
  | none => p

/-- Object spread `\x7b...a, ...b\x7d`: the keys of `a` in order with values
overridden by `b` where present, followed by the keys of `b` absent
from `a`. -/
def mergeSpread (a b : Headers) : Headers :=
  a.map (overrideWith b) ++ b.filter fun p => !hasProp a p.1

/-- Embedding of `RestClient.updateHeaders(headers)` (src/unnamed/part_001
lines 218-225): spread-merge the new headers over the current ones. -/
def RestClient.updateHeaders (c : RestClient) (hs : Headers) : RestClient :=
  { c with headers := mergeSpread c.headers hs }

/-- Constructor options of `RestClient`. -/
structure CtorOpts where
  headers : Headers := []
  simulatedDelay : Nat := 0

/-- Embedding of the `RestClient` constructor (src/unnamed/part_001 lines
58-70): reject an empty base URL, then merge the constructor headers over
the default headers via `updateHeaders`. -/
def RestClient.make (baseUrl : List Char) (options : CtorOpts) :
    Except JsErr RestClient :=
  if baseUrl = [] then .error .missingBaseUrl
  else .ok (RestClient.updateHeaders
    { baseUrl := baseUrl, headers := defaultHeaders,
      simulatedDelay := options.simulatedDelay } options.headers)

/-- Query parameter mappings handed to `Qs.stringify`. -/
abbrev Query := List (List Char × Json)

/-- Unreserved characters kept verbatim by the percent-encoder. -/
def isUnreservedCh (c : Char) : Bool :=
  c.isAlphanum || c = '-' || c = '_' || c = '.' || c = '~'

/-- Upper-case hexadecimal digit character. -/
def hexDigitChar (n : Nat) : Char :=
  if n < 10 then digitToChar n
  else if n = 10 then 'A' else if n = 11 then 'B' else if n = 12 then 'C'
  else if n = 13 then 'D' else if n = 14 then 'E' else 'F'

/-- Percent-encoding of a string (ASCII fragment of
`encodeURIComponent`, as applied by `Qs.stringify`). -/
def pctEncode : List Char → List Char
  | [] => []
  | c :: s =>
    (if isUnreservedCh c then [c]
     else '%' :: [hexDigitChar (c.toNat / 16 % 16), hexDigitChar (c.toNat % 16)]) ++
    pctEncode s

/-- Rendering of one primitive query value by `Qs.stringify`; nested
containers are outside the modelled fragment (the spec scopes the
query-string library out of the core). -/
def qvChars : Json → List Char
  | .num n => intToChars n
  | .str s => pctEncode s
  | .bool true => litTrue
  | .bool false => litFalse
  | .null => []
  | .arr _ => []
  | .obj _ => []

/-- `Qs.stringify` on a flat mapping: `k=v` pairs joined by `&`. -/
def qsStringify : Query → List Char
  | [] => []
  | [(k, v)] => pctEncode k ++ '=' :: qvChars v
  | (k, v) :: rest => (pctEncode k ++ '=' :: qvChars v) ++ '&' :: qsStringify rest

/-- Drop a single trailing `?` (the `.replace(/\?$/, '')` of
`fullRoute`). -/
def stripTrailingQm (s : List Char) : List Char :=
  match s.reverse with
  | '?' :: t => t.reverse
  | _ => s

/-- Embedding of `RestClient.fullRoute(url, params)` (src/unnamed/part_001
lines 87-91): base URL, route, `?`, query string, with a trailing bare `?`
stripped. -/
def fullRoute (c : RestClient) (url : List Char) (params : Query) :
    List Char :=
  stripTrailingQm (c.baseUrl ++ url ++ '?' :: qsStringify params)

/-- Per-call options of `_fetch` and the verb methods.  Fields left at
their defaults model keys absent from the JavaScript options object. -/
structure Opts where
  headers : Headers := []
  query : Option Query := none
  forceType : Option (List Char) := none
  resolveStreams : Bool := false

/-- Header mapping as a JSON object value. -/
def headersToFields : Headers → JsonFields
  | [] => .nil
  | (k, v) :: t => .cons k (.str v) (headersToFields t)

/-- The options record as the JavaScript object value it denotes when it
flows into a value position (fields at their defaults correspond to absent
keys).  Needed because `delete` passes its options object where `_fetch`
expects the request body. -/
def Opts.asJsValue (o : Opts) : Json :=
  .obj (listToFields (
    (if o.headers = [] then [] else
      [(strL "headers", .obj (headersToFields o.headers))]) ++
    (match o.query with
     | none => []
     | some q => [(strL "query", .obj (listToFields q))]) ++
    (match o.forceType with
     | none => []
     | some t => [(strL "forceType", .str t)]) ++
    (if o.resolveStreams then [(strL "resolveStreams", .bool true)] else [])))

/-- The merged headers of one dispatch (src/unnamed/part_001 lines
113-117): default headers, spread-overridden by the per-call headers,
spread-overridden by the mapping returned by the `resolveHeaders` hook. -/
def requestHeaders (c : RestClient) (optHeaders hook : Headers) : Headers :=
  mergeSpread (mergeSpread c.headers optHeaders) hook

/-- The request handed to the transport: full URL, method, merged headers,
and the (promise of the) encoded body. -/
structure Request where
  url : List Char
  method : List Char
  headers : Headers
  body : Except JsErr SentBody

/-- The pre-network phase of `_fetch` (src/unnamed/part_001 lines 108-124):
validate the route, build the full URL, merge the headers and encode the
body.  `hook` is the mapping returned by the (subclass-overridable,
default-empty) `resolveHeaders` hook. -/
def buildRequest (c : RestClient) (route method : List Char) (params : Query)
    (body : Json) (options : Opts) (hook : Headers) :
    Except JsErr Request :=
  if route = [] then .error .routeNotDefined
  else
    let headers := requestHeaders c options.headers hook
    .ok { url := fullRoute c route params, method := method,
          headers := headers, body := parseBody body headers }

/-- The post-network phase of `_fetch` (src/unnamed/part_001 lines
126-141): decode the response, then throw an `HTTPError` built from the
status, transport status text and decoded body when the status is not ok;
the default `transform` hook is the identity. -/
def handleResponse (r : JsResponse) (forceType : Option (List Char))
    (resolveStreams : Bool) : Except JsErr Decoded :=
  match resolveResponse r forceType resolveStreams with
  | .error e => .error e
  | .ok resp =>
    if r.isOk = false then
      match HTTPError.make r.status r.statusText resp with
      | .error e => .error e
      | .ok h => .error h
    else .ok resp

/-- Embedding of `RestClient._fetch` for the default (base-class) hooks:
build the request, obtain the transport response for it from `world`, and
handle it. -/
def runFetch (c : RestClient) (route method : List Char) (params : Query)
    (body : Json) (options : Opts) (hook : Headers)
    (world : Request → JsResponse) : Except JsErr Decoded :=
  match buildRequest c route method params body options hook with
  | .error e => .error e
  | .ok req => handleResponse (world req) options.forceType options.resolveStreams

/-- Embedding of `RestClient.get` (src/unnamed/part_001 lines 234-236). -/
def RestClient.get (c : RestClient) (route : List Char) (query : Query)
    (options : Opts) (hook : Headers) (world : Request → JsResponse) :
    Except JsErr Decoded :=
  runFetch c route (strL "GET") query .null options hook world

/-- The argument marshalling shared by `post`, `put` and `patch`:
`options.query` is pulled out as the query-params argument and deleted from
the options before forwarding. -/
def postArgs (options : Opts) : Query × Opts :=
  (match options.query with | some q => q | none => [],
   { options with query := none })

/-- Embedding of `RestClient.post` (src/unnamed/part_001 lines 246-250). -/
def RestClient.post (c : RestClient) (route : List Char) (body : Json)
    (options : Opts) (hook : Headers) (world : Request → JsResponse) :
    Except JsErr Decoded :=
  runFetch c route (strL "POST") (postArgs options).1 body
    (postArgs options).2 hook world

/-- Embedding of `RestClient.put` (src/unnamed/part_001 lines 260-264). -/
def RestClient.put (c : RestClient) (route : List Char) (body : Json)
    (options : Opts) (hook : Headers) (world : Request → JsResponse) :
    Except JsErr Decoded :=
  runFetch c route (strL "PUT") (postArgs options).1 body
    (postArgs options).2 hook world

/-- Embedding of `RestClient.patch` (src/unnamed/part_001 lines 274-278). -/
def RestClient.patch (c : RestClient) (route : List Char) (body : Json)
    (options : Opts) (hook : Headers) (world : Request → JsResponse) :
    Except JsErr Decoded :=
  runFetch c route (strL "PATCH") (postArgs options).1 body
    (postArgs options).2 hook world

/-- Embedding of `RestClient.delete` (src/unnamed/part_001 lines 287-289).
The source calls `this._fetch(route, 'DELETE', query, options)` with only
four arguments, so the options object is passed in the body position and
the real options parameter of `_fetch` is left at its default. -/
def RestClient.delete (c : RestClient) (route : List Char) (query : Query)
    (options : Opts) (hook : Headers) (world : Request → JsResponse) :
    Except JsErr Decoded :=
  runFetch c route (strL "DELETE") query options.asJsValue {} hook world

/-- The request built by a `delete` call (its pre-network phase). -/
def deleteRequest (c : RestClient) (route : List Char) (query : Query)
    (options : Opts) (hook : Headers) : Except JsErr Request :=
  buildRequest c route (strL "DELETE") query options.asJsValue {} hook

/-- Embedding of the module-level `simpleFetch` (src/src/index.js lines
16-20): construct a throw-away client for the ad-hoc base URL and call
`_fetch` with the empty string as the route. -/
def simpleFetch (url method : List Char) (params : Query) (body : Json)
    (options : Opts) (hook : Headers) (world : Request → JsResponse) :
    Except JsErr Decoded :=
  match RestClient.make url {} with
  | .error e => .error e
  | .ok c => runFetch c [] method params body options hook world

theorem natToCharsAux_congr :
    ∀ f1 f2 n, n < f1 → n < f2 → natToCharsAux f1 n = natToCharsAux f2 n := by
  intro f1
  induction f1 with
  | zero => intro f2 n h1; omega
  | succ f ih =>
    intro f2 n h1 h2
    cases f2 with
    | zero => omega
    | succ f2' =>
      simp only [natToCharsAux]
      by_cases h : n < 10
      · simp [h]
      · have hd : n / 10 < n := Nat.div_lt_self (by omega) (by omega)
        simp only [h, if_false]
        rw [ih f2' (n / 10) (by omega) (by omega)]

theorem natToChars_eq (n : Nat) :
    natToChars n =
      if n < 10 then [digitToChar n]
      else natToChars (n / 10) ++ [digitToChar (n % 10)] := by
  by_cases h : n < 10
  · simp [natToChars, natToCharsAux, h]
  · rw [if_neg h]
    show natToCharsAux (n + 1) n = _
    simp only [natToCharsAux, h, if_false]
    congr 1
    simp only [natToChars]
    exact natToCharsAux_congr n (n / 10 + 1) (n / 10)
      (by
        have hlt : n / 10 < n :=
          Nat.div_lt_self (show 0 < n by omega) (show 1 < 10 by omega)
        omega)
      (by omega)

theorem charToDigit_digitToChar (d : Nat) (h : d < 10) :
    charToDigit (digitToChar d) = d := by
  interval_cases d <;> rfl

theorem isDigit_digitToChar (d : Nat) (h : d < 10) :
    (digitToChar d).isDigit = true := by
  interval_cases d <;> rfl

theorem natToChars_head (n : Nat) :
    ∃ c cs, natToChars n = c :: cs ∧ c.isDigit = true := by
  induction n using Nat.strong_induction_on with
  | _ n ih =>
    rw [natToChars_eq]
    by_cases h : n < 10
    · exact ⟨digitToChar n, [], by simp [h], isDigit_digitToChar n h⟩
    · have hd : n / 10 < n := Nat.div_lt_self (by omega) (by omega)
      obtain ⟨c, cs, hc, hdig⟩ := ih (n / 10) hd
      exact ⟨c, cs ++ [digitToChar (n % 10)], by simp [h, hc], hdig⟩

theorem parseNatAux_notDigit (cs : List Char) (acc : Nat)
    (h : headIsDigit cs = false) : parseNatAux cs acc = (acc, cs) := by
  cases cs with
  | nil => rfl
  | cons c rest =>
    simp only [headIsDigit] at h
    simp [parseNatAux, h]

theorem parseNatAux_chars (n : Nat) :
    ∃ T, 0 < T ∧ ∀ acc rest,
      parseNatAux (natToChars n ++ rest) acc = parseNatAux rest (acc * T + n) := by
  induction n using Nat.strong_induction_on with
  | _ n ih =>
    by_cases h : n < 10
    · refine ⟨10, by omega, fun acc rest => ?_⟩
      rw [natToChars_eq]
      simp only [h, if_true, List.cons_append, List.nil_append]
      simp [parseNatAux, isDigit_digitToChar n h, charToDigit_digitToChar n h]
    · have hd : n / 10 < n := Nat.div_lt_self (by omega) (by omega)
      obtain ⟨T, hT, hrec⟩ := ih (n / 10) hd
      refine ⟨T * 10, by omega, fun acc rest => ?_⟩
      rw [natToChars_eq]
      simp only [h, if_false, List.append_assoc, List.cons_append,
        List.nil_append]
      rw [hrec acc (digitToChar (n % 10) :: rest)]
      have h9 : n % 10 < 10 := Nat.mod_lt n (by omega)
      simp only [parseNatAux, isDigit_digitToChar (n % 10) h9, if_true,
        charToDigit_digitToChar (n % 10) h9]
      congr 1
      have hsum : n / 10 * 10 + n % 10 = n := by omega
      calc (acc * T + n / 10) * 10 + n % 10
          = acc * (T * 10) + (n / 10 * 10 + n % 10) := by ring
        _ = acc * (T * 10) + n := by rw [hsum]

theorem parseNatChars_chars (n : Nat) (rest : List Char)
    (h : headIsDigit rest = false) :
    parseNatChars (natToChars n ++ rest) = some (n, rest) := by
  obtain ⟨c, cs, hc, hdig⟩ := natToChars_head n
  obtain ⟨T, hT, hrec⟩ := parseNatAux_chars n
  have h0 := hrec 0 rest
  rw [parseNatAux_notDigit rest (0 * T + n) h] at h0
  rw [hc] at h0 ⊢
  simp only [List.cons_append, parseNatAux, hdig, if_true] at h0
  simp only [Nat.zero_mul, Nat.zero_add, List.append_eq] at h0
  simp [parseNatChars, hdig, h0]

theorem parseStringBody_esc (e u : Char) (hu : unescapeChar e = some u)
    (M : List Char) :
    parseStringBody ('\\' :: e :: M) =
      (parseStringBody M).map fun p => (u :: p.1, p.2) := by
  rw [parseStringBody.eq_def]
  simp [hu]

theorem parseStringBody_plain (c : Char) (h1 : ¬ c = '"') (h2 : ¬ c = '\\')
    (M : List Char) :
    parseStringBody (c :: M) =
      (parseStringBody M).map fun p => (c :: p.1, p.2) := by
  rw [parseStringBody.eq_def]
  simp [h1, h2]

theorem escapeChar_step (c : Char) (M : List Char) :
    parseStringBody (escapeChar c ++ M) =
      (parseStringBody M).map fun p => (c :: p.1, p.2) := by
  by_cases h1 : c = '"'
  · subst h1
    rw [show escapeChar '"' = ['\\', '"'] from rfl]
    exact parseStringBody_esc '"' '"' rfl M
  by_cases h2 : c = '\\'
  · subst h2
    rw [show escapeChar '\\' = ['\\', '\\'] from rfl]
    exact parseStringBody_esc '\\' '\\' rfl M
  by_cases h3 : c = '\n'
  · subst h3
    rw [show escapeChar '\n' = ['\\', 'n'] from rfl]
    exact parseStringBody_esc 'n' '\n' rfl M
  by_cases h4 : c = '\t'
  · subst h4
    rw [show escapeChar '\t' = ['\\', 't'] from rfl]
    exact parseStringBody_esc 't' '\t' rfl M
  by_cases h5 : c = '\r'
  · subst h5
    rw [show escapeChar '\r' = ['\\', 'r'] from rfl]
    exact parseStringBody_esc 'r' '\r' rfl M
  by_cases h6 : c = Char.ofNat 8
  · subst h6
    rw [show escapeChar (Char.ofNat 8) = ['\\', 'b'] from rfl]
    exact parseStringBody_esc 'b' (Char.ofNat 8) rfl M
  by_cases h7 : c = Char.ofNat 12
  · subst h7
    rw [show escapeChar (Char.ofNat 12) = ['\\', 'f'] from rfl]
    exact parseStringBody_esc 'f' (Char.ofNat 12) rfl M
  rw [show escapeChar c = [c] by simp [escapeChar, h1, h2, h3, h4, h5, h6, h7]]
  exact parseStringBody_plain c h1 h2 M

theorem parseStringBody_escape (s rest : List Char) :
    parseStringBody (escapeStr s ++ '"' :: rest) = some (s, rest) := by
  induction s with
  | nil =>
    show parseStringBody ('"' :: rest) = some ([], rest)
    rw [parseStringBody.eq_def]
    simp
  | cons c s' ih =>
    show parseStringBody ((escapeChar c ++ escapeStr s') ++ '"' :: rest) = _
    rw [List.append_assoc, escapeChar_step, ih]
    rfl

theorem stringifyJson_head (j : Json) :
    ∃ c cs, stringifyJson j = c :: cs ∧
      (c.isDigit = true ∨ c = '-' ∨ c = '"' ∨ c = '[' ∨ c = '\x7b' ∨
       c = 't' ∨ c = 'f' ∨ c = 'n') := by
  cases j with
  | null => exact ⟨'n', _, rfl, by simp⟩
  | bool b =>
    cases b with
    | true => exact ⟨'t', _, rfl, by simp⟩
    | false => exact ⟨'f', _, rfl, by simp⟩
  | num n =>
    show ∃ c cs, intToChars n = c :: cs ∧ _
    by_cases hn : n < 0
    · exact ⟨'-', natToChars n.natAbs, by simp [intToChars, hn], by simp⟩
    · obtain ⟨c, cs, hc, hd⟩ := natToChars_head n.toNat
      exact ⟨c, cs, by simp [intToChars, hn, hc], Or.inl hd⟩
  | str s => exact ⟨'"', _, rfl, by simp⟩
  | arr l => exact ⟨'[', _, rfl, by simp⟩
  | obj f => exact ⟨'\x7b', _, rfl, by simp⟩

mutual

theorem jsize_le_len (j : Json) : jsize j ≤ (stringifyJson j).length := by
  cases j with
  | null => simp [jsize, stringifyJson, litNull]
  | bool b => cases b <;> simp [jsize, stringifyJson, litTrue, litFalse]
  | num n =>
    obtain ⟨c, cs, hc, -⟩ := stringifyJson_head (Json.num n)
    rw [show jsize (Json.num n) = 1 from rfl, hc]
    simp
  | str s => simp [jsize, stringifyJson]
  | arr l =>
    have h := jsizeL_le_len l
    rw [show jsize (Json.arr l) = jsizeL l + 1 from rfl,
      show stringifyJson (Json.arr l) = '[' :: (stringifyList l ++ [']'])
        from rfl]
    simp only [List.length_cons, List.length_append]
    omega
  | obj f =>
    have h := jsizeF_le_len f
    rw [show jsize (Json.obj f) = jsizeF f + 1 from rfl,
      show stringifyJson (Json.obj f) = '\x7b' :: (stringifyFields f ++ ['\x7d'])
        from rfl]
    simp only [List.length_cons, List.length_append]
    omega

theorem jsizeL_le_len (l : JsonList) :
    jsizeL l ≤ (stringifyList l).length + 1 := by
  cases l with
  | nil => simp [jsizeL]
  | cons h t =>
    cases t with
    | nil =>
      have h1 := jsize_le_len h
      rw [show jsizeL (JsonList.cons h JsonList.nil) =
          max (jsize h) 0 + 1 from rfl,
        show stringifyList (JsonList.cons h JsonList.nil) = stringifyJson h
          from rfl, Nat.max_zero]
      omega
    | cons h2 t2 =>
      have hh := jsize_le_len h
      have ht := jsizeL_le_len (JsonList.cons h2 t2)
      rw [show jsizeL (JsonList.cons h (JsonList.cons h2 t2)) =
          max (jsize h) (jsizeL (JsonList.cons h2 t2)) + 1 from rfl,
        show stringifyList (JsonList.cons h (JsonList.cons h2 t2)) =
          stringifyJson h ++ ',' :: stringifyList (JsonList.cons h2 t2)
          from rfl]
      simp only [List.length_append, List.length_cons]
      have hmax : max (jsize h) (jsizeL (JsonList.cons h2 t2)) ≤
          (stringifyJson h).length +
            (stringifyList (JsonList.cons h2 t2)).length + 1 :=
        Nat.max_le.mpr (And.intro (by omega) (by omega))
      omega

theorem jsizeF_le_len (f : JsonFields) :
    jsizeF f ≤ (stringifyFields f).length + 1 := by
  cases f with
  | nil => simp [jsizeF]
  | cons k v t =>
    cases t with
    | nil =>
      have h1 := jsize_le_len v
      rw [show jsizeF (JsonFields.cons k v JsonFields.nil) =
          max (jsize v) 0 + 1 from rfl,
        show stringifyFields (JsonFields.cons k v JsonFields.nil) =
          '"' :: (escapeStr k ++ '"' :: ':' :: stringifyJson v) from rfl,
        Nat.max_zero]
      simp only [List.length_cons, List.length_append]
      omega
    | cons k2 v2 t2 =>
      have hv := jsize_le_len v
      have ht := jsizeF_le_len (JsonFields.cons k2 v2 t2)
      rw [show jsizeF (JsonFields.cons k v (JsonFields.cons k2 v2 t2)) =
          max (jsize v) (jsizeF (JsonFields.cons k2 v2 t2)) + 1 from rfl,
        show stringifyFields (JsonFields.cons k v (JsonFields.cons k2 v2 t2)) =
          ('"' :: (escapeStr k ++ '"' :: ':' :: stringifyJson v)) ++
            ',' :: stringifyFields (JsonFields.cons k2 v2 t2) from rfl]
      simp only [List.length_append, List.length_cons]
      have hmax : max (jsize v) (jsizeF (JsonFields.cons k2 v2 t2)) ≤
          (escapeStr k).length + (stringifyJson v).length +
            (stringifyFields (JsonFields.cons k2 v2 t2)).length + 3 :=
        Nat.max_le.mpr (And.intro (by omega) (by omega))
      omega

end

theorem jsize_pos (j : Json) : 1 ≤ jsize j := by
  cases j <;> simp [jsize]

theorem jsizeL_pos (l : JsonList) (h : l ≠ JsonList.nil) : 1 ≤ jsizeL l := by
  cases l with
  | nil => exact absurd rfl h
  | cons hd tl => simp [jsizeL]

theorem jsizeF_pos (f : JsonFields) (h : f ≠ JsonFields.nil) :
    1 ≤ jsizeF f := by
  cases f with
  | nil => exact absurd rfl h
  | cons k v tl => simp [jsizeF]

theorem elemStop_digit (rest : List Char) (h : elemStop rest = true) :
    headIsDigit rest = false := by
  cases rest with
  | nil => rfl
  | cons c r =>
    simp only [elemStop, Bool.and_eq_true, Bool.not_eq_true',
      beq_eq_false_iff_ne] at h
    simp [headIsDigit, h.1]

theorem stringifyJson_head_ne (j : Json) :
    ∃ c cs, stringifyJson j = c :: cs ∧ c ≠ ']' ∧ c ≠ '\x7d' := by
  obtain ⟨c, cs, hc, hcl⟩ := stringifyJson_head j
  refine ⟨c, cs, hc, ?_, ?_⟩
  · rcases hcl with hd | rfl | rfl | rfl | rfl | rfl | rfl | rfl
    · intro heq; rw [heq] at hd; exact absurd hd (by decide)
    all_goals decide
  · rcases hcl with hd | rfl | rfl | rfl | rfl | rfl | rfl | rfl
    · intro heq; rw [heq] at hd; exact absurd hd (by decide)
    all_goals decide

theorem stringifyList_head_ne (h : Json) (t : JsonList) :
    ∃ c cs, stringifyList (JsonList.cons h t) = c :: cs ∧ c ≠ ']' := by
  obtain ⟨c, cs, hc, hne, -⟩ := stringifyJson_head_ne h
  cases t with
  | nil => exact ⟨c, cs, hc, hne⟩
  | cons h2 t2 =>
    refine ⟨c, cs ++ ',' :: stringifyList (JsonList.cons h2 t2), ?_, hne⟩
    rw [show stringifyList (JsonList.cons h (JsonList.cons h2 t2)) =
      stringifyJson h ++ ',' :: stringifyList (JsonList.cons h2 t2) from rfl,
      hc]
    rw [List.cons_append]

theorem stringifyFields_head (k : List Char) (v : Json) (t : JsonFields) :
    ∃ X, stringifyFields (JsonFields.cons k v t) = '"' :: X := by
  cases t with
  | nil => exact ⟨_, rfl⟩
  | cons k2 v2 t2 => exact ⟨_, rfl⟩

theorem parseValueF_cons (fuel : Nat) (c : Char) (rest : List Char) :
    parseValueF (fuel + 1) (c :: rest) =
      (if c.isDigit then
        (parseNatChars (c :: rest)).map fun p => (Json.num (p.1 : Int), p.2)
      else if c = '-' then
        (parseNatChars rest).map fun p => (Json.num (-(p.1 : Int)), p.2)
      else if c = '"' then
        (parseStringBody rest).map fun p => (Json.str p.1, p.2)
      else if c = '[' then
        match rest with
        | ']' :: r2 => some (Json.arr JsonList.nil, r2)
        | _ =>
          (parseElemsF fuel rest).bind fun p =>
            match p.2 with
            | ']' :: r2 => some (Json.arr p.1, r2)
            | _ => none
      else if c = '\x7b' then
        match rest with
        | '\x7d' :: r2 => some (Json.obj JsonFields.nil, r2)
        | _ =>
          (parseFieldsF fuel rest).bind fun p =>
            match p.2 with
            | '\x7d' :: r2 => some (Json.obj p.1, r2)
            | _ => none
      else if c = 't' then
        match rest with
        | 'r' :: 'u' :: 'e' :: r2 => some (Json.bool true, r2)
        | _ => none
      else if c = 'f' then
        match rest with
        | 'a' :: 'l' :: 's' :: 'e' :: r2 => some (Json.bool false, r2)
        | _ => none
      else if c = 'n' then
        match rest with
        | 'u' :: 'l' :: 'l' :: r2 => some (Json.null, r2)
        | _ => none
      else none) := rfl

theorem parseValueF_null (fuel : Nat) (rest : List Char) :
    parseValueF (fuel + 1) ('n' :: 'u' :: 'l' :: 'l' :: rest) =
      some (Json.null, rest) := rfl

theorem parseValueF_true (fuel : Nat) (rest : List Char) :
    parseValueF (fuel + 1) ('t' :: 'r' :: 'u' :: 'e' :: rest) =
      some (Json.bool true, rest) := rfl

theorem parseValueF_false (fuel : Nat) (rest : List Char) :
    parseValueF (fuel + 1) ('f' :: 'a' :: 'l' :: 's' :: 'e' :: rest) =
      some (Json.bool false, rest) := rfl

theorem parseValueF_quote (fuel : Nat) (rest : List Char) :
    parseValueF (fuel + 1) ('"' :: rest) =
      (parseStringBody rest).map fun p => (Json.str p.1, p.2) := rfl

theorem parseValueF_neg (fuel : Nat) (rest : List Char) :
    parseValueF (fuel + 1) ('-' :: rest) =
      (parseNatChars rest).map fun p => (Json.num (-(p.1 : Int)), p.2) := rfl

theorem parseValueF_digit (fuel : Nat) (c : Char) (rest : List Char)
    (hd : c.isDigit = true) :
    parseValueF (fuel + 1) (c :: rest) =
      (parseNatChars (c :: rest)).map fun p => (Json.num (p.1 : Int), p.2) := by
  rw [parseValueF_cons, if_pos hd]

theorem parseValueF_brackL (fuel : Nat) (rest : List Char) :
    parseValueF (fuel + 1) ('[' :: rest) =
      (match rest with
      | ']' :: r2 => some (Json.arr JsonList.nil, r2)
      | _ =>
        (parseElemsF fuel rest).bind fun p =>
          match p.2 with
          | ']' :: r2 => some (Json.arr p.1, r2)
          | _ => none) := rfl

theorem parseValueF_braceL (fuel : Nat) (rest : List Char) :
    parseValueF (fuel + 1) ('\x7b' :: rest) =
      (match rest with
      | '\x7d' :: r2 => some (Json.obj JsonFields.nil, r2)
      | _ =>
        (parseFieldsF fuel rest).bind fun p =>
          match p.2 with
          | '\x7d' :: r2 => some (Json.obj p.1, r2)
          | _ => none) := rfl

theorem parseElemsF_succ (fuel : Nat) (cs : List Char) :
    parseElemsF (fuel + 1) cs =
      (parseValueF fuel cs).bind fun p =>
        match p.2 with
        | ',' :: r2 =>
          (parseElemsF fuel r2).map fun q => (JsonList.cons p.1 q.1, q.2)
        | _ => some (JsonList.cons p.1 JsonList.nil, p.2) := rfl

theorem parseFieldsF_quote (fuel : Nat) (rest : List Char) :
    parseFieldsF (fuel + 1) ('"' :: rest) =
      (parseStringBody rest).bind fun pk =>
        match pk.2 with
        | ':' :: r2 =>
          (parseValueF fuel r2).bind fun pv =>
            match pv.2 with
            | ',' :: r4 =>
              (parseFieldsF fuel r4).map fun q =>
                (JsonFields.cons pk.1 pv.1 q.1, q.2)
            | _ => some (JsonFields.cons pk.1 pv.1 JsonFields.nil, pv.2)
        | _ => none := rfl

theorem parse_stringify_all : ∀ fuel : Nat,
    (∀ j rest, jsize j ≤ fuel → headIsDigit rest = false →
      parseValueF fuel (stringifyJson j ++ rest) = some (j, rest)) ∧
    (∀ l rest, l ≠ JsonList.nil → jsizeL l ≤ fuel → elemStop rest = true →
      parseElemsF fuel (stringifyList l ++ rest) = some (l, rest)) ∧
    (∀ f rest, f ≠ JsonFields.nil → jsizeF f ≤ fuel → elemStop rest = true →
      parseFieldsF fuel (stringifyFields f ++ rest) = some (f, rest)) := by
  intro fuel
  induction fuel with
  | zero =>
    refine ⟨fun j rest hsz _ => ?_, fun l rest hne hsz _ => ?_,
      fun f rest hne hsz _ => ?_⟩
    · have := jsize_pos j; omega
    · have := jsizeL_pos l hne; omega
    · have := jsizeF_pos f hne; omega
  | succ fuel ih =>
    obtain ⟨ihV, ihL, ihF⟩ := ih
    refine ⟨?_, ?_, ?_⟩
    · intro j rest hsz hrest
      cases j with
      | null =>
        rw [show stringifyJson Json.null ++ rest =
          'n' :: 'u' :: 'l' :: 'l' :: rest from rfl, parseValueF_null]
      | bool b =>
        cases b with
        | false =>
          rw [show stringifyJson (Json.bool false) ++ rest =
            'f' :: 'a' :: 'l' :: 's' :: 'e' :: rest from rfl,
            parseValueF_false]
        | true =>
          rw [show stringifyJson (Json.bool true) ++ rest =
            't' :: 'r' :: 'u' :: 'e' :: rest from rfl, parseValueF_true]
      | num n =>
        by_cases hn : n < 0
        · rw [show stringifyJson (Json.num n) = intToChars n from rfl,
            show intToChars n = '-' :: natToChars n.natAbs from by
              simp [intToChars, hn],
            List.cons_append, parseValueF_neg,
            parseNatChars_chars n.natAbs rest hrest]
          have hcast : -((n.natAbs : Nat) : Int) = n := by omega
          show some (Json.num (-((n.natAbs : Nat) : Int)), rest) =
            some (Json.num n, rest)
          rw [hcast]
        · rw [show stringifyJson (Json.num n) = intToChars n from rfl,
            show intToChars n = natToChars n.toNat from by
              simp [intToChars, hn]]
          obtain ⟨c, cs, hc, hd⟩ := natToChars_head n.toNat
          rw [hc, List.cons_append, parseValueF_digit fuel c (cs ++ rest) hd,
            ← List.cons_append, ← hc,
            parseNatChars_chars n.toNat rest hrest]
          have hcast : ((n.toNat : Nat) : Int) = n := by omega
          show some (Json.num ((n.toNat : Nat) : Int), rest) =
            some (Json.num n, rest)
          rw [hcast]
      | str s =>
        rw [show stringifyJson (Json.str s) ++ rest =
          '"' :: ((escapeStr s ++ ['"']) ++ rest) from rfl,
          List.append_assoc,
          show ['"'] ++ rest = '"' :: rest from rfl, parseValueF_quote,
          parseStringBody_escape]
        rfl
      | arr l =>
        cases l with
        | nil =>
          rw [show stringifyJson (Json.arr JsonList.nil) ++ rest =
            '[' :: ']' :: rest from rfl, parseValueF_brackL]
          rfl
        | cons h t =>
          rw [show stringifyJson (Json.arr (JsonList.cons h t)) ++ rest =
            '[' :: (stringifyList (JsonList.cons h t) ++ (']' :: rest)) from
              by simp [stringifyJson], parseValueF_brackL]
          have hL : parseElemsF fuel
              (stringifyList (JsonList.cons h t) ++ (']' :: rest)) =
              some (JsonList.cons h t, ']' :: rest) := by
            refine ihL (JsonList.cons h t) (']' :: rest)
              (fun hX => JsonList.noConfusion hX) ?_ rfl
            have h1 : jsizeL (JsonList.cons h t) + 1 ≤ fuel + 1 := hsz
            omega
          obtain ⟨c, cs, hc, hne⟩ := stringifyList_head_ne h t
          rw [hc, List.cons_append]
          split
          · rename_i r2 heq
            rw [List.cons_eq_cons] at heq
            exact absurd heq.1 hne
          · rw [← List.cons_append, ← hc, hL]
            rfl
      | obj f =>
        cases f with
        | nil =>
          rw [show stringifyJson (Json.obj JsonFields.nil) ++ rest =
            '\x7b' :: '\x7d' :: rest from rfl, parseValueF_braceL]
          rfl
        | cons k v t =>
          rw [show stringifyJson (Json.obj (JsonFields.cons k v t)) ++ rest =
            '\x7b' :: (stringifyFields (JsonFields.cons k v t) ++
              ('\x7d' :: rest)) from by simp [stringifyJson],
            parseValueF_braceL]
          have hF : parseFieldsF fuel
              (stringifyFields (JsonFields.cons k v t) ++ ('\x7d' :: rest)) =
              some (JsonFields.cons k v t, '\x7d' :: rest) := by
            refine ihF (JsonFields.cons k v t) ('\x7d' :: rest)
              (fun hX => JsonFields.noConfusion hX) ?_ rfl
            have h1 : jsizeF (JsonFields.cons k v t) + 1 ≤ fuel + 1 := hsz
            omega
          obtain ⟨X, hX⟩ := stringifyFields_head k v t
          rw [hX, List.cons_append]
          split
          · rename_i r2 heq
            rw [List.cons_eq_cons] at heq
            exact absurd heq.1 (by decide)
          · rw [← List.cons_append, ← hX, hF]
            rfl
    · intro l rest hne hsz hstop
      cases l with
      | nil => exact absurd rfl hne
      | cons h t =>
        rw [parseElemsF_succ]
        cases t with
        | nil =>
          rw [show stringifyList (JsonList.cons h JsonList.nil) =
            stringifyJson h from rfl]
          have hV : parseValueF fuel (stringifyJson h ++ rest) =
              some (h, rest) := by
            refine ihV h rest ?_ (elemStop_digit rest hstop)
            have h1 : max (jsize h) 0 + 1 ≤ fuel + 1 := hsz
            have h2 := Nat.max_zero (jsize h)
            omega
          rw [hV]
          show (match rest with
            | ',' :: r2 =>
              (parseElemsF fuel r2).map
                fun q : JsonList × List Char => (JsonList.cons h q.1, q.2)
            | _ => some (JsonList.cons h JsonList.nil, rest)) = _
          cases rest with
          | nil => rfl
          | cons c r =>
            have hcne : ¬ c = ',' := by
              simp only [elemStop, Bool.and_eq_true, Bool.not_eq_true',
                beq_eq_false_iff_ne] at hstop
              exact hstop.2
            split
            · rename_i r2 heq
              rw [List.cons_eq_cons] at heq
              exact absurd heq.1 hcne
            · rfl
        | cons h2 t2 =>
          rw [show stringifyList (JsonList.cons h (JsonList.cons h2 t2)) ++
              rest = stringifyJson h ++
              (',' :: (stringifyList (JsonList.cons h2 t2) ++ rest)) from by
            rw [show stringifyList (JsonList.cons h (JsonList.cons h2 t2)) =
              stringifyJson h ++ ',' :: stringifyList (JsonList.cons h2 t2)
              from rfl]
            simp]
          have hV : parseValueF fuel (stringifyJson h ++
              (',' :: (stringifyList (JsonList.cons h2 t2) ++ rest))) =
              some (h, ',' :: (stringifyList (JsonList.cons h2 t2) ++ rest)) := by
            refine ihV h _ ?_ rfl
            have h1 : max (jsize h) (jsizeL (JsonList.cons h2 t2)) + 1 ≤
              fuel + 1 := hsz
            have h2 := Nat.le_max_left (jsize h) (jsizeL (JsonList.cons h2 t2))
            omega
          rw [hV]
          have hT : parseElemsF fuel
              (stringifyList (JsonList.cons h2 t2) ++ rest) =
              some (JsonList.cons h2 t2, rest) := by
            refine ihL (JsonList.cons h2 t2) rest
              (fun hX => JsonList.noConfusion hX) ?_ hstop
            have h1 : max (jsize h) (jsizeL (JsonList.cons h2 t2)) + 1 ≤
              fuel + 1 := hsz
            have h2 := Nat.le_max_right (jsize h) (jsizeL (JsonList.cons h2 t2))
            omega
          show (parseElemsF fuel
            (stringifyList (JsonList.cons h2 t2) ++ rest)).map
              (fun q : JsonList × List Char => (JsonList.cons h q.1, q.2)) = _
          rw [hT]
          rfl
    · intro f rest hne hsz hstop
      cases f with
      | nil => exact absurd rfl hne
      | cons k v t =>
        cases t with
        | nil =>
          rw [show stringifyFields (JsonFields.cons k v JsonFields.nil) ++
              rest = '"' :: (escapeStr k ++
                ('"' :: ':' :: (stringifyJson v ++ rest))) from by
            rw [show stringifyFields (JsonFields.cons k v JsonFields.nil) =
              '"' :: (escapeStr k ++ '"' :: ':' :: stringifyJson v) from rfl]
            simp]
          rw [parseFieldsF_quote, parseStringBody_escape]
          have hV : parseValueF fuel (stringifyJson v ++ rest) =
              some (v, rest) := by
            refine ihV v rest ?_ (elemStop_digit rest hstop)
            have h1 : max (jsize v) 0 + 1 ≤ fuel + 1 := hsz
            have h2 := Nat.max_zero (jsize v)
            omega
          show (parseValueF fuel (stringifyJson v ++ rest)).bind _ = _
          rw [hV]
          show (match rest with
            | ',' :: r4 =>
              (parseFieldsF fuel r4).map
                fun q : JsonFields × List Char => (JsonFields.cons k v q.1, q.2)
            | _ => some (JsonFields.cons k v JsonFields.nil, rest)) = _
          cases rest with
          | nil => rfl
          | cons c r =>
            have hcne : ¬ c = ',' := by
              simp only [elemStop, Bool.and_eq_true, Bool.not_eq_true',
                beq_eq_false_iff_ne] at hstop
              exact hstop.2
            split
            · rename_i r2 heq
              rw [List.cons_eq_cons] at heq
              exact absurd heq.1 hcne
            · rfl
        | cons k2 v2 t2 =>
          rw [show stringifyFields
              (JsonFields.cons k v (JsonFields.cons k2 v2 t2)) ++ rest =
              '"' :: (escapeStr k ++ ('"' :: ':' :: (stringifyJson v ++
                (',' :: (stringifyFields (JsonFields.cons k2 v2 t2) ++
                  rest))))) from by
            rw [show stringifyFields
                (JsonFields.cons k v (JsonFields.cons k2 v2 t2)) =
              ('"' :: (escapeStr k ++ '"' :: ':' :: stringifyJson v)) ++
                ',' :: stringifyFields (JsonFields.cons k2 v2 t2) from rfl]
            simp]
          rw [parseFieldsF_quote, parseStringBody_escape]
          have hV : parseValueF fuel (stringifyJson v ++
              (',' :: (stringifyFields (JsonFields.cons k2 v2 t2) ++ rest))) =
              some (v, ',' :: (stringifyFields (JsonFields.cons k2 v2 t2) ++
                rest)) := by
            refine ihV v _ ?_ rfl
            have h1 : max (jsize v) (jsizeF (JsonFields.cons k2 v2 t2)) + 1 ≤
              fuel + 1 := hsz
            have h2 := Nat.le_max_left (jsize v)
              (jsizeF (JsonFields.cons k2 v2 t2))
            omega
          show (parseValueF fuel _).bind _ = _
          rw [hV]
          have hT : parseFieldsF fuel
              (stringifyFields (JsonFields.cons k2 v2 t2) ++ rest) =
              some (JsonFields.cons k2 v2 t2, rest) := by
            refine ihF (JsonFields.cons k2 v2 t2) rest
              (fun hX => JsonFields.noConfusion hX) ?_ hstop
            have h1 : max (jsize v) (jsizeF (JsonFields.cons k2 v2 t2)) + 1 ≤
              fuel + 1 := hsz
            have h2 := Nat.le_max_right (jsize v)
              (jsizeF (JsonFields.cons k2 v2 t2))
            omega
          show (parseFieldsF fuel
            (stringifyFields (JsonFields.cons k2 v2 t2) ++ rest)).map
              (fun q : JsonFields × List Char =>
                (JsonFields.cons k v q.1, q.2)) = _
          rw [hT]
          rfl


theorem parseJson_stringify (j : Json) :
    parseJson (stringifyJson j) = some j := by
  have h := (parse_stringify_all ((stringifyJson j).length + 1)).1 j []
    (by have := jsize_le_len j; omega) rfl
  rw [List.append_nil] at h
  show (match parseValueF ((stringifyJson j).length + 1) (stringifyJson j) with
    | some (j, []) => some j
    | _ => none) = some j
  rw [h]

theorem lookupProp_append {β : Type} (xs ys : List (List Char × β))
    (k : List Char) :
    lookupProp (xs ++ ys) k =
      match lookupProp xs k with
      | some v => some v
      | none => lookupProp ys k := by
  induction xs with
  | nil => simp [lookupProp]
  | cons p xs ih =>
    obtain ⟨k', v⟩ := p
    by_cases h : k' = k
    · simp [lookupProp, h]
    · simp [lookupProp, h, ih]

theorem lookupProp_map_override {β : Type} (a b : List (List Char × β))
    (k : List Char) :
    lookupProp (a.map (overrideWith b)) k =
      match lookupProp a k with
      | some v =>
        (match lookupProp b k with
         | some w => some w
         | none => some v)
      | none => none := by
  induction a with
  | nil => simp [lookupProp]
  | cons p a ih =>
    obtain ⟨k', v⟩ := p
    by_cases h : k' = k
    · subst h
      cases hb : lookupProp b k' <;> simp [lookupProp, hb]
    · cases hb : lookupProp b k' <;> simp [lookupProp, hb, h, ih]

theorem lookupProp_filter_not {β : Type} (a b : List (List Char × β))
    (k : List Char) :
    lookupProp (b.filter fun p => !hasProp a p.1) k =
      if hasProp a k = true then none else lookupProp b k := by
  induction b with
  | nil => cases h : hasProp a k <;> simp [lookupProp, h]
  | cons p b ih =>
    obtain ⟨k', v⟩ := p
    by_cases hk : k' = k
    · subst hk
      cases h : hasProp a k' <;>
        simp [List.filter_cons, h, lookupProp, ih]
    · cases h : hasProp a k' <;>
        cases h2 : hasProp a k <;>
          simp [List.filter_cons, h, h2, lookupProp, hk, ih]

theorem lookupProp_mergeSpread (a b : Headers) (k : List Char) :
    lookupProp (mergeSpread a b) k =
      match lookupProp b k with
      | some w => some w
      | none => lookupProp a k := by
  unfold mergeSpread
  rw [lookupProp_append, lookupProp_map_override, lookupProp_filter_not]
  cases ha : lookupProp a k <;> cases hb : lookupProp b k <;>
    simp [hasProp, ha, hb]

theorem getHeader_nil (n : List Char) : getHeader [] n = none := rfl

theorem getHeader_cons_skip (h : Headers) (k v n : List Char)
    (hk : alnumLead k = false) : getHeader ((k, v) :: h) n = getHeader h n := by
  simp [getHeader, List.filter_cons, hk]

theorem getHeader_cons_hit (h : Headers) (k v n : List Char)
    (hk : alnumLead k = true) (hm : lowerChars k = lowerChars n) :
    getHeader ((k, v) :: h) n = some v := by
  simp [getHeader, List.filter_cons, hk, List.find?_cons, hm]

theorem getHeader_cons_miss (h : Headers) (k v n : List Char)
    (hm : lowerChars k ≠ lowerChars n) :
    getHeader ((k, v) :: h) n = getHeader h n := by
  cases hk : alnumLead k with
  | false => exact getHeader_cons_skip h k v n hk
  | true => simp [getHeader, List.filter_cons, hk, List.find?_cons, hm]

theorem getHeader_congr (h : Headers) (n n' : List Char)
    (he : lowerChars n = lowerChars n') : getHeader h n = getHeader h n' := by
  simp [getHeader, he]

theorem startsWith_json_not_text (ct : List Char)
    (h : startsWithCh ctJsonChars ct = true) :
    startsWithCh ctTextChars ct = false := by
  cases ct with
  | nil => simp [ctJsonChars, startsWithCh] at h
  | cons c cs =>
    simp only [ctJsonChars, startsWithCh, Bool.and_eq_true,
      decide_eq_true_eq] at h
    rw [← h.1]
    rfl

/-- C4: for every truthy body and header mapping in which the
case-insensitive Content-Type lookup yields nothing, `parseBody` throws a
`TypeError` (the `startsWith` call on the `null` lookup result) instead of
falling through to return the body unchanged. -/
theorem parseBody_missing_content_type_faults (body : Json)
    (headers : Headers) (ht : body.truthy = true)
    (hh : getHeader headers ctNameChars = none) :
    parseBody body headers = Except.error JsErr.typeError := by
  simp [parseBody, ht, hh]

/-- Witness for C4 at a concrete truthy body and empty header mapping. -/
theorem parseBody_missing_content_type_faults_witness :
    parseBody (Json.obj (JsonFields.cons (strL "a") (Json.num 1)
      JsonFields.nil)) [] = Except.error JsErr.typeError :=
  parseBody_missing_content_type_faults _ [] rfl rfl

/-- C6: for every falsy body value, `parseBody` returns the body unchanged
(no request body encoding occurs), whatever the headers are. -/
theorem parseBody_falsy_identity (body : Json) (headers : Headers)
    (hf : body.truthy = false) :
    parseBody body headers = Except.ok (SentBody.jsVal body) := by
  simp [parseBody, hf]

/-- Witness for C6 at the `null` body and a header mapping that would have
selected the JSON branch for a truthy body. -/
theorem parseBody_falsy_identity_witness :
    parseBody Json.null defaultHeaders =
      Except.ok (SentBody.jsVal Json.null) :=
  parseBody_falsy_identity Json.null defaultHeaders rfl

/-- C10: for every response whose headers contain no Content-Type entry,
when no `forceType` is supplied `resolveResponse` throws a `TypeError`
(the `toLowerCase` call on the `null` lookup result), so the
binary/pass-through branch is never reached for such responses. -/
theorem resolveResponse_missing_content_type_faults (r : JsResponse)
    (rs : Bool) (hh : getHeader r.headers ctNameChars = none) :
    resolveResponse r none rs = Except.error JsErr.typeError := by
  simp [resolveResponse, hh]

/-- Witness for C10 at a concrete response with empty headers, in both
stream-resolution modes. -/
theorem resolveResponse_missing_content_type_faults_witness :
    resolveResponse
      { status := 200, statusText := strL "OK", headers := [],
        bodyText := strL "abc" } none false =
      Except.error JsErr.typeError ∧
    resolveResponse
      { status := 200, statusText := strL "OK", headers := [],
        bodyText := strL "abc" } none true =
      Except.error JsErr.typeError :=
  And.intro
    (resolveResponse_missing_content_type_faults _ false rfl)
    (resolveResponse_missing_content_type_faults _ true rfl)

/-- C8: `getHeader` compares the queried name case-insensitively (only its
lower-cased form matters), ignores keys that do not begin with an
alphanumeric character, returns the value of the first matching key in
iteration order (a matching head wins immediately, a non-matching head is
skipped), and returns null when no key matches. -/
theorem getHeader_lookup_spec :
    (∀ (h : Headers) (n n' : List Char), lowerChars n = lowerChars n' →
      getHeader h n = getHeader h n') ∧
    (∀ (h : Headers) (k v n : List Char), alnumLead k = false →
      getHeader ((k, v) :: h) n = getHeader h n) ∧
    (∀ (h : Headers) (k v n : List Char), alnumLead k = true →
      lowerChars k = lowerChars n → getHeader ((k, v) :: h) n = some v) ∧
    (∀ (h : Headers) (k v n : List Char),
      lowerChars k ≠ lowerChars n →
      getHeader ((k, v) :: h) n = getHeader h n) ∧
    (∀ n : List Char, getHeader [] n = none) :=
  ⟨getHeader_congr, getHeader_cons_skip, getHeader_cons_hit,
    getHeader_cons_miss, getHeader_nil⟩

/-- Witness for C8: a mixed-case query finds the differently-cased key, and
an absent key yields null. -/
theorem getHeader_lookup_spec_witness :
    getHeader [(strL "Content-Type", strL "application/json")]
      (strL "CONTENT-TYPE") = some (strL "application/json") ∧
    getHeader [(strL "X-A", strL "1")] (strL "x-b") = none := by
  constructor
  · exact getHeader_lookup_spec.2.2.1 [] (strL "Content-Type")
      (strL "application/json") (strL "CONTENT-TYPE") rfl rfl
  · rw [getHeader_lookup_spec.2.2.2.1 [] (strL "X-A") (strL "1")
      (strL "x-b") (by decide)]
    exact getHeader_lookup_spec.2.2.2.2 (strL "x-b")

/-- C5: for every non-empty body object and headers whose Content-Type
value has prefix `application/json`, `parseBody` returns the JSON
serialization of the body, and decoding that serialization with the JSON
parser yields a value equal to the input body (serialize-then-parse round
trip). -/
theorem parseBody_json_roundtrip (f : JsonFields) (headers : Headers)
    (ct : List Char) (_hne : f ≠ JsonFields.nil)
    (hh : getHeader headers ctNameChars = some ct)
    (hj : startsWithCh ctJsonChars ct = true) :
    parseBody (Json.obj f) headers =
      Except.ok (SentBody.jsStr (stringifyJson (Json.obj f))) ∧
    parseJson (stringifyJson (Json.obj f)) = some (Json.obj f) := by
  constructor
  · simp [parseBody, Json.truthy, hh, hj, startsWith_json_not_text ct hj]
  · exact parseJson_stringify (Json.obj f)

/-- Witness for C5 at a concrete non-empty object body under the default
headers. -/
theorem parseBody_json_roundtrip_witness :
    parseBody (Json.obj (JsonFields.cons (strL "a")
        (Json.str (strL "b")) JsonFields.nil)) defaultHeaders =
      Except.ok (SentBody.jsStr (stringifyJson (Json.obj
        (JsonFields.cons (strL "a") (Json.str (strL "b"))
          JsonFields.nil)))) ∧
    parseJson (stringifyJson (Json.obj (JsonFields.cons (strL "a")
        (Json.str (strL "b")) JsonFields.nil))) =
      some (Json.obj (JsonFields.cons (strL "a") (Json.str (strL "b"))
        JsonFields.nil)) :=
  parseBody_json_roundtrip _ defaultHeaders (strL "application/json")
    (fun hX => JsonFields.noConfusion hX) rfl rfl

/-- C7: the headers of every dispatch are computed by starting from the
client's stored headers (the defaults `Accept`/`Content-Type:
application/json` overridden key-by-key by the constructor headers) and
overriding key-by-key first with the per-call `options.headers` and then
with the mapping returned by the `resolveHeaders` hook, so a later source
wins for every key. -/
theorem fetch_headers_merge (base : List Char) (copts : CtorOpts)
    (c : RestClient) (hmk : RestClient.make base copts = Except.ok c)
    (optH hook : Headers) (k : List Char) :
    lookupProp (requestHeaders c optH hook) k =
      (match lookupProp hook k with
       | some v => some v
       | none =>
         match lookupProp optH k with
         | some v => some v
         | none => lookupProp c.headers k) ∧
    lookupProp c.headers k =
      (match lookupProp copts.headers k with
       | some v => some v
       | none => lookupProp defaultHeaders k) := by
  constructor
  · unfold requestHeaders
    rw [lookupProp_mergeSpread, lookupProp_mergeSpread]
  · unfold RestClient.make at hmk
    by_cases hb : base = []
    · rw [if_pos hb] at hmk
      exact Except.noConfusion hmk
    · rw [if_neg hb] at hmk
      have hc := Except.ok.inj hmk
      rw [← hc]
      show lookupProp (mergeSpread defaultHeaders copts.headers) k = _
      rw [lookupProp_mergeSpread]

/-- Witness for C7 at a concretely constructed client, a per-call header
and a hook header: the hook wins over the per-call header, which wins over
the default. -/
theorem fetch_headers_merge_witness :
    (lookupProp (requestHeaders
        { baseUrl := strL "u", headers := defaultHeaders,
          simulatedDelay := 0 }
        [(strL "Accept", strL "text/html")] []) (strL "Accept") =
      (match lookupProp ([] : Headers) (strL "Accept") with
       | some v => some v
       | none =>
         match lookupProp [(strL "Accept", strL "text/html")]
             (strL "Accept") with
         | some v => some v
         | none => lookupProp defaultHeaders (strL "Accept")) ∧
    lookupProp defaultHeaders (strL "Accept") =
      (match lookupProp ([] : Headers) (strL "Accept") with
       | some v => some v
       | none => lookupProp defaultHeaders (strL "Accept"))) ∧
    lookupProp (requestHeaders
        { baseUrl := strL "u", headers := defaultHeaders,
          simulatedDelay := 0 }
        [(strL "Accept", strL "text/html")] []) (strL "Accept") =
      some (strL "text/html") :=
  And.intro
    (fetch_headers_merge (strL "u") {}
      { baseUrl := strL "u", headers := defaultHeaders,
        simulatedDelay := 0 } rfl
      [(strL "Accept", strL "text/html")] [] (strL "Accept"))
    rfl

/-- C1 counterexample: a response with the non-success, non-standard status
399 and a decodable JSON body makes the dispatcher raise the status-table
error thrown inside the `HTTPError` constructor (`getStatusText` has no
entry for 399), not an `HTTPError` — so the claim's universal statement
over all non-success responses fails at this input. -/
theorem handleResponse_unknown_status_not_http :
    handleResponse
      { status := 399, statusText := strL "Odd", headers :=
          [(strL "Content-Type", strL "application/json")],
        bodyText := strL "\x7b\x7d" } none false =
      Except.error (JsErr.invalidStatusCode 399) := rfl

/-- C1 (amended to statuses that have a standard reason phrase): for every
response whose status is not in the success range but is in the standard
status-code table, the dispatcher decodes the body first and then raises an
`HTTPError` whose code is the response status, whose message falls back to
the reason phrase when the transport text is empty, whose `statusText`
getter yields the standard reason phrase derived from the code, and whose
`response` field is the decoded body. -/
theorem dispatch_nonsuccess_raises_http_error (r : JsResponse)
    (ft : Option (List Char)) (rs : Bool) (d : Decoded) (st : List Char)
    (hok : r.isOk = false) (hst : getStatusText r.status = some st)
    (hdec : resolveResponse r ft rs = Except.ok d) :
    handleResponse r ft rs =
      Except.error (JsErr.http r.status
        (if r.statusText = [] then st else r.statusText) d) ∧
    httpErrorStatusText r.status = some st := by
  constructor
  · simp [handleResponse, hdec, hok, HTTPError.make, hst]
  · simp [httpErrorStatusText, hst]

/-- Witness for the amended C1 at the claim's own instance: status 404 with
JSON body carrying `error: not found` raises an `HTTPError` with code 404,
reason phrase `Not Found`, and the decoded body (whose `error` field is the
string `not found`) as its response. -/
theorem dispatch_nonsuccess_raises_http_error_witness :
    handleResponse
      { status := 404, statusText := strL "Not Found", headers :=
          [(strL "Content-Type", strL "application/json")],
        bodyText := stringifyJson (Json.obj (JsonFields.cons (strL "error")
          (Json.str (strL "not found")) JsonFields.nil)) } none false =
      Except.error (JsErr.http 404 (strL "Not Found")
        (Decoded.json (Json.obj (JsonFields.cons (strL "error")
          (Json.str (strL "not found")) JsonFields.nil)))) ∧
    httpErrorStatusText 404 = some (strL "Not Found") ∧
    Json.getField (Json.obj (JsonFields.cons (strL "error")
        (Json.str (strL "not found")) JsonFields.nil)) (strL "error") =
      some (Json.str (strL "not found")) := by
  have h := dispatch_nonsuccess_raises_http_error
    { status := 404, statusText := strL "Not Found", headers :=
        [(strL "Content-Type", strL "application/json")],
      bodyText := stringifyJson (Json.obj (JsonFields.cons (strL "error")
        (Json.str (strL "not found")) JsonFields.nil)) } none false
    (Decoded.json (Json.obj (JsonFields.cons (strL "error")
      (Json.str (strL "not found")) JsonFields.nil)))
    (strL "Not Found") rfl rfl rfl
  refine ⟨?_, h.2, rfl⟩
  rw [h.1]
  rfl

/-- C2: evaluating the `delete` wrapper's request construction at a
concrete client and per-call options shows the bug — the options object is
JSON-encoded and sent as the request body, while the forwarded options are
the defaults, so the per-call `X-Auth` header never reaches the request
headers. -/
theorem delete_sends_options_as_body :
    deleteRequest
      { baseUrl := strL "https://api", headers := defaultHeaders,
        simulatedDelay := 0 }
      (strL "/r") [] { headers := [(strL "X-Auth", strL "t")] } [] =
      Except.ok
        { url := strL "https://api/r", method := strL "DELETE",
          headers := defaultHeaders,
          body := Except.ok (SentBody.jsStr (stringifyJson
            (Opts.asJsValue { headers := [(strL "X-Auth", strL "t")] }))) } ∧
    stringifyJson
        (Opts.asJsValue { headers := [(strL "X-Auth", strL "t")] }) =
      strL "\x7b\x22headers\x22:\x7b\x22X-Auth\x22:\x22t\x22\x7d\x7d" ∧
    lookupProp defaultHeaders (strL "X-Auth") = none :=
  And.intro rfl (And.intro rfl rfl)

/-- C3: `simpleFetch` always fails with the `Route is not defined`
configuration error before any network activity, because it calls `_fetch`
with the empty string as the route — for every non-empty URL and arbitrary
remaining arguments. -/
theorem simpleFetch_route_not_defined (url method : List Char)
    (params : Query) (body : Json) (options : Opts) (hook : Headers)
    (world : Request → JsResponse) (hurl : url ≠ []) :
    simpleFetch url method params body options hook world =
      Except.error JsErr.routeNotDefined := by
  simp [simpleFetch, RestClient.make, hurl, runFetch, buildRequest]

/-- Witness for C3 at a concrete URL and transport. -/
theorem simpleFetch_route_not_defined_witness :
    simpleFetch (strL "https://api.example.com/x") (strL "GET") [] Json.null
      {} [] (fun _ =>
        { status := 200, statusText := strL "OK", headers := [],
          bodyText := [] }) =
      Except.error JsErr.routeNotDefined :=
  simpleFetch_route_not_defined _ _ [] Json.null {} []
    (fun _ =>
      { status := 200, statusText := strL "OK", headers := [],
        bodyText := [] })
    (by decide)

/-- C9: for every client, route, body and options whose `query` key holds
the mapping `x = 1`, the `post` marshalling pulls the query out of the
options (the forwarded options hold no `query` key) and the request built
by the dispatch pipeline has the full URL `baseUrl ++ route ++ "?x=1"` —
its query string contains `x=1`. -/
theorem post_query_extraction (c : RestClient) (route : List Char)
    (body : Json) (opts : Opts) (hook : Headers)
    (hq : opts.query = some [(strL "x", Json.num 1)])
    (hroute : route ≠ []) :
    buildRequest c route (strL "POST") (postArgs opts).1 body
        (postArgs opts).2 hook =
      Except.ok
        { url := c.baseUrl ++ route ++ strL "?x=1",
          method := strL "POST",
          headers := requestHeaders c opts.headers hook,
          body := parseBody body (requestHeaders c opts.headers hook) } ∧
    (postArgs opts).2.query = none := by
  have hq1 : (postArgs opts).1 = [(strL "x", Json.num 1)] := by
    simp [postArgs, hq]
  have hqs : qsStringify [(strL "x", Json.num 1)] = strL "x=1" := rfl
  constructor
  · unfold buildRequest
    rw [if_neg hroute]
    have hurl : fullRoute c route [(strL "x", Json.num 1)] =
        c.baseUrl ++ route ++ strL "?x=1" := by
      unfold fullRoute
      rw [hqs]
      unfold stripTrailingQm
      rw [show c.baseUrl ++ route ++ '?' :: strL "x=1" =
        (c.baseUrl ++ route) ++ ('?' :: strL "x=1") from rfl]
      rw [List.reverse_append]
      rfl
    rw [hq1, hurl]
    rfl
  · simp [postArgs]

/-- Witness for C9 at a concrete client, route, body and options. -/
theorem post_query_extraction_witness :
    buildRequest
      { baseUrl := strL "https://api", headers := defaultHeaders,
        simulatedDelay := 0 }
      (strL "/r") (strL "POST")
      (postArgs { query := some [(strL "x", Json.num 1)] }).1 Json.null
      (postArgs { query := some [(strL "x", Json.num 1)] }).2 [] =
      Except.ok
        { url := strL "https://api" ++ strL "/r" ++ strL "?x=1",
          method := strL "POST",
          headers := requestHeaders
            { baseUrl := strL "https://api", headers := defaultHeaders,
              simulatedDelay := 0 } [] [],
          body := parseBody Json.null (requestHeaders
            { baseUrl := strL "https://api", headers := defaultHeaders,
              simulatedDelay := 0 } [] []) } ∧
    (postArgs { query := some [(strL "x", Json.num 1)] }).2.query = none :=
  post_query_extraction
    { baseUrl := strL "https://api", headers := defaultHeaders,
      simulatedDelay := 0 }
    (strL "/r") Json.null { query := some [(strL "x", Json.num 1)] } []
    rfl (by decide)

